import Mathlib

/-!
Verification of the Kultivator incremental-synchronization core.

The definitions below are a shallow embedding of the Python source:

* `CanonicalBlock` embeds `kultivator/models/canonical.py` (`CanonicalBlock`,
  a pydantic model with fields `block_id`, `source_ref`, `content`,
  `created_at`, `updated_at`, `children`).
* The serializers `serBlockDB`, `serBlockE`, `serBlockC` embed the canonical
  JSON strings that `DatabaseManager.calculate_content_hash`,
  `LogseqEDNImporter._calculate_block_hash` and
  `LogseqClassicEDNImporter._calculate_block_hash` feed to `hashlib.sha256`.
  SHA-256 itself is an external cryptographic primitive; hashes are modelled
  as `digest` applied to the serialized string, for an arbitrary digest
  function supplied as a parameter.
* `DBState` and its operations embed the DuckDB tables and the methods of
  `kultivator/database/manager.py`.
* `get_changed_blocks`, `edn_get_all_blocks`, `classic_get_all_blocks` embed
  the importers in `kultivator/importers/`.
* `confirm_bootstrap_wipe` and `run_bootstrap_pipeline` embed the guard logic
  of `main.py`.
-/

/-- Embeds `CanonicalBlock` from `kultivator/models/canonical.py`:
`block_id`, `source_ref`, `content` are strings, `created_at`/`updated_at`
optional integer timestamps, `children` an ordered list of blocks. -/
inductive CanonicalBlock : Type where
  | mk (block_id : String) (source_ref : String) (content : String)
       (created_at : Option Int) (updated_at : Option Int)
       (children : List CanonicalBlock)

namespace CanonicalBlock

def block_id : CanonicalBlock → String
  | .mk i _ _ _ _ _ => i

def source_ref : CanonicalBlock → String
  | .mk _ s _ _ _ _ => s

def content : CanonicalBlock → String
  | .mk _ _ c _ _ _ => c

def created_at : CanonicalBlock → Option Int
  | .mk _ _ _ ca _ _ => ca

def updated_at : CanonicalBlock → Option Int
  | .mk _ _ _ _ ua _ => ua

def children : CanonicalBlock → List CanonicalBlock
  | .mk _ _ _ _ _ ch => ch

end CanonicalBlock

/-- The hexadecimal digit characters produced by Python's `%04x` format
(lower case), used by `json.dumps(..., ensure_ascii=True)` for `\uXXXX`
escapes. -/
def hexDigit (n : Nat) : Char :=
  if n < 10 then Char.ofNat (48 + n) else Char.ofNat (87 + n)

/-- Four-digit lower-case hex rendering of a 16-bit code unit, as in
Python's `'\\u%04x' % n`. -/
def hex4 (n : Nat) : List Char :=
  [hexDigit (n / 4096 % 16), hexDigit (n / 256 % 16),
   hexDigit (n / 16 % 16), hexDigit (n % 16)]

/-- Per-character escaping of `json.dumps` with `ensure_ascii=True`
(CPython `json.encoder.py_encode_basestring_ascii`): `"` and `\` get a
backslash escape, printable ASCII (0x20–0x7E) passes through, the control
characters BS/TAB/LF/FF/CR get their short escapes, every other code point
below 0x10000 becomes `\uXXXX`, and astral code points become a UTF-16
surrogate pair `\uXXXX\uXXXX`. -/
def escChar (c : Char) : List Char :=
  if c = '"' then ['\\', '"']
  else if c = '\\' then ['\\', '\\']
  else if 0x20 ≤ c.toNat ∧ c.toNat ≤ 0x7E then [c]
  else if c.toNat = 8 then ['\\', 'b']
  else if c.toNat = 9 then ['\\', 't']
  else if c.toNat = 10 then ['\\', 'n']
  else if c.toNat = 12 then ['\\', 'f']
  else if c.toNat = 13 then ['\\', 'r']
  else if c.toNat < 0x10000 then '\\' :: 'u' :: hex4 c.toNat
  else ('\\' :: 'u' :: hex4 (0xD800 + (c.toNat - 0x10000) / 1024)) ++
       ('\\' :: 'u' :: hex4 (0xDC00 + (c.toNat - 0x10000) % 1024))

/-- Escape a character list (the body of a JSON string literal). -/
def escList : List Char → List Char
  | [] => []
  | c :: cs => escChar c ++ escList cs

/-- A JSON string literal: quote, escaped body, quote. -/
def qstr (s : String) : List Char :=
  '"' :: (escList s.data ++ ['"'])

/-- Decimal digit character, as in Python's `str` of an `int`. -/
def digitChar (n : Nat) : Char := Char.ofNat (48 + n)

/-- Decimal rendering of a natural number (no sign, no padding),
matching Python's `json.dumps` integer output. -/
def natDec (n : Nat) : List Char :=
  if _h : n < 10 then [digitChar n]
  else natDec (n / 10) ++ [digitChar (n % 10)]
  decreasing_by exact Nat.div_lt_self (by omega) (by omega)

/-- Decimal rendering of an integer, with a leading `-` when negative. -/
def intDec (i : Int) : List Char :=
  if i < 0 then '-' :: natDec i.natAbs else natDec i.toNat

/-- JSON rendering of an optional integer field: `null` for `None`
(Python), decimal otherwise. -/
def serOptInt : Option Int → List Char
  | none => ['n', 'u', 'l', 'l']
  | some i => intDec i

/- Literal fragments of the canonical JSON forms.  With
`json.dumps(..., sort_keys=True)` the keys of `CanonicalBlock.model_dump()`
appear in the order `block_id`, `children`, `content`, `created_at`,
`source_ref`, `updated_at`, and the default separators are `', '` and
`': '` (used by `DatabaseManager.calculate_content_hash` and
`LogseqEDNImporter._calculate_block_hash`), while
`LogseqClassicEDNImporter._calculate_block_hash` passes
`separators=(',', ':')`. -/

/-- `{"block_id": ` -/
def litOpen : List Char :=
  ['{', '"', 'b', 'l', 'o', 'c', 'k', '_', 'i', 'd', '"', ':', ' ']

/-- `, "children": ` -/
def litChildren : List Char :=
  [',', ' ', '"', 'c', 'h', 'i', 'l', 'd', 'r', 'e', 'n', '"', ':', ' ']

/-- `, "content": ` -/
def litContent : List Char :=
  [',', ' ', '"', 'c', 'o', 'n', 't', 'e', 'n', 't', '"', ':', ' ']

/-- `, "created_at": ` -/
def litCreated : List Char :=
  [',', ' ', '"', 'c', 'r', 'e', 'a', 't', 'e', 'd', '_', 'a', 't', '"', ':', ' ']

/-- `, "source_ref": ` -/
def litSource : List Char :=
  [',', ' ', '"', 's', 'o', 'u', 'r', 'c', 'e', '_', 'r', 'e', 'f', '"', ':', ' ']

/-- `, "updated_at": ` -/
def litUpdated : List Char :=
  [',', ' ', '"', 'u', 'p', 'd', 'a', 't', 'e', 'd', '_', 'a', 't', '"', ':', ' ']

mutual

/-- The canonical JSON of a block as hashed by
`DatabaseManager.calculate_content_hash`
(src/kultivator/database/manager.py:216-229):
`json.dumps(block.model_dump(), sort_keys=True, ensure_ascii=True)`. -/
def serBlockDB : CanonicalBlock → List Char
  | .mk bid src cont ca ua ch =>
      litOpen ++ qstr bid ++
      litChildren ++ serListDB ch ++
      litContent ++ qstr cont ++
      litCreated ++ serOptInt ca ++
      litSource ++ qstr src ++
      litUpdated ++ serOptInt ua ++ ['}']

/-- JSON list of blocks with default separators: `[]` or `[x, y, z]`. -/
def serListDB : List CanonicalBlock → List Char
  | [] => ['[', ']']
  | b :: bs => '[' :: (serBlockDB b ++ serTailDB bs)

/-- Remaining elements of a JSON list, each preceded by `, `. -/
def serTailDB : List CanonicalBlock → List Char
  | [] => [']']
  | b :: bs => ',' :: ' ' :: (serBlockDB b ++ serTailDB bs)

end

/-- The DB-layer content hash
(`DatabaseManager.calculate_content_hash`): SHA-256 of the canonical JSON.
The digest function is an abstract parameter (SHA-256 is an external
primitive); the serialized string it is applied to is modelled exactly. -/
def calculate_content_hash (digest : String → String) (b : CanonicalBlock) : String :=
  digest (String.mk (serBlockDB b))

mutual

/-- The canonical JSON hashed by `LogseqEDNImporter._calculate_block_hash`
(src/kultivator/importers/logseq_edn.py:410-430): the block is first
projected onto the four keys `block_id`, `source_ref`, `content`,
`children` (recursively, via `_serialize_children`) and then rendered with
`json.dumps(..., sort_keys=True)` (default separators, default
`ensure_ascii=True`).  The timestamp fields are absent. -/
def serBlockE : CanonicalBlock → List Char
  | .mk bid src cont _ _ ch =>
      litOpen ++ qstr bid ++
      litChildren ++ serListE ch ++
      litContent ++ qstr cont ++
      litSource ++ qstr src ++ ['}']

/-- JSON list of importer-projected blocks with default separators. -/
def serListE : List CanonicalBlock → List Char
  | [] => ['[', ']']
  | b :: bs => '[' :: (serBlockE b ++ serTailE bs)

/-- Remaining elements of an importer-projected JSON list. -/
def serTailE : List CanonicalBlock → List Char
  | [] => [']']
  | b :: bs => ',' :: ' ' :: (serBlockE b ++ serTailE bs)

end

/-- `{"block_id":` (compact separators). -/
def litOpenC : List Char :=
  ['{', '"', 'b', 'l', 'o', 'c', 'k', '_', 'i', 'd', '"', ':']

/-- `,"children":` -/
def litChildrenC : List Char :=
  [',', '"', 'c', 'h', 'i', 'l', 'd', 'r', 'e', 'n', '"', ':']

/-- `,"content":` -/
def litContentC : List Char :=
  [',', '"', 'c', 'o', 'n', 't', 'e', 'n', 't', '"', ':']

/-- `,"created_at":` -/
def litCreatedC : List Char :=
  [',', '"', 'c', 'r', 'e', 'a', 't', 'e', 'd', '_', 'a', 't', '"', ':']

/-- `,"source_ref":` -/
def litSourceC : List Char :=
  [',', '"', 's', 'o', 'u', 'r', 'c', 'e', '_', 'r', 'e', 'f', '"', ':']

/-- `,"updated_at":` -/
def litUpdatedC : List Char :=
  [',', '"', 'u', 'p', 'd', 'a', 't', 'e', 'd', '_', 'a', 't', '"', ':']

mutual

/-- The canonical JSON hashed by
`LogseqClassicEDNImporter._calculate_block_hash`
(src/kultivator/importers/logseq_classic_edn.py:197-204):
`json.dumps(block.model_dump(), sort_keys=True, separators=(',', ':'))` —
same keys as the DB hash but compact separators. -/
def serBlockC : CanonicalBlock → List Char
  | .mk bid src cont ca ua ch =>
      litOpenC ++ qstr bid ++
      litChildrenC ++ serListC ch ++
      litContentC ++ qstr cont ++
      litCreatedC ++ serOptInt ca ++
      litSourceC ++ qstr src ++
      litUpdatedC ++ serOptInt ua ++ ['}']

/-- JSON list of blocks with compact separators. -/
def serListC : List CanonicalBlock → List Char
  | [] => ['[', ']']
  | b :: bs => '[' :: (serBlockC b ++ serTailC bs)

/-- Remaining elements of a compact JSON list, each preceded by `,`. -/
def serTailC : List CanonicalBlock → List Char
  | [] => [']']
  | b :: bs => ',' :: (serBlockC b ++ serTailC bs)

end

/-- Importer-layer change-detection hash of `LogseqEDNImporter`
(`_calculate_block_hash`): SHA-256 (abstract `digest`) of the projected
canonical JSON. -/
def calculate_block_hash_edn (digest : String → String) (b : CanonicalBlock) : String :=
  digest (String.mk (serBlockE b))

/-- Importer-layer change-detection hash of `LogseqClassicEDNImporter`
(`_calculate_block_hash`): SHA-256 (abstract `digest`) of the compact
canonical JSON. -/
def calculate_block_hash_classic (digest : String → String) (b : CanonicalBlock) : String :=
  digest (String.mk (serBlockC b))

/-!  ## The state store (`kultivator/database/manager.py`)

The DuckDB tables are modelled as lists of rows; the primary-key and
foreign-key constraints of `initialize_database` are modelled by the
explicit checks that DuckDB performs on insert (a violation raises
`IntegrityError`, which every store method catches and converts to a
`False` return, leaving the tables untouched). -/

/-- A row of the `entities` table: `entity_name` (primary key),
`entity_type`, `wiki_path`, `created_at`, `last_updated_at`. -/
structure EntityRow where
  name : String
  entity_type : String
  wiki_path : Option String
  row_created_at : Nat
  last_updated_at : Nat
deriving DecidableEq, Repr

/-- The in-memory `Entity` pydantic model (`kultivator/models/entities.py`):
`name`, `entity_type`, `wiki_path`. -/
structure Entity where
  name : String
  entity_type : String
  wiki_path : Option String
deriving DecidableEq, Repr

/-- The three core tables of the DuckDB state store. -/
structure DBState where
  entities : List EntityRow
  processed : List (String × String)
  mentions : List (String × String)
deriving DecidableEq, Repr

/-- The empty store, as created by `initialize_database` on a fresh file. -/
def DBState.empty : DBState := ⟨[], [], []⟩

/-- Row lookup backing the `entities` primary-key check and `get_entity`'s
`WHERE entity_name = ?`. -/
def findEntityRow (st : DBState) (name : String) : Option EntityRow :=
  st.entities.find? (fun r => r.name = name)

/-- Lookup backing the `processed_blocks` primary-key check and
`block_needs_processing`'s `SELECT content_hash ... WHERE block_id = ?`. -/
def lookupProcessed (st : DBState) (block_id : String) : Option String :=
  (st.processed.find? (fun p => p.1 = block_id)).map (fun p => p.2)

/-- `DatabaseManager.add_entity` (manager.py:128-155): a single
`INSERT INTO entities`; a duplicate `entity_name` raises `IntegrityError`,
which is caught and reported as `False` with the table unchanged.  `now`
stands for the two `datetime.now()` arguments. -/
def add_entity (st : DBState) (e : Entity) (now : Nat) : Bool × DBState :=
  match findEntityRow st e.name with
  | some _ => (false, st)
  | none =>
      (true, { st with entities :=
        st.entities ++ [⟨e.name, e.entity_type, e.wiki_path, now, now⟩] })

/-- `DatabaseManager.get_entity` (manager.py:157-182): returns the three
selected columns as an `Entity`, or `None`. -/
def get_entity (st : DBState) (name : String) : Option Entity :=
  (findEntityRow st name).map (fun r => ⟨r.name, r.entity_type, r.wiki_path⟩)

/-- `DatabaseManager.list_entities` (manager.py:184-214): all entities,
optionally filtered by type, `ORDER BY entity_name`. -/
def list_entities (st : DBState) (entity_type : Option String) : List Entity :=
  let rows : List EntityRow := match entity_type with
    | some t => st.entities.filter (fun r => r.entity_type = t)
    | none => st.entities
  (rows.map (fun r => (⟨r.name, r.entity_type, r.wiki_path⟩ : Entity))).mergeSort
    (fun a b => a.name ≤ b.name)

/-- `DatabaseManager.add_processed_block` (manager.py:231-254): computes the
content hash, then a single `INSERT INTO processed_blocks`; a duplicate
`block_id` raises `IntegrityError`, caught and reported as `False` with the
table unchanged (in particular the stored hash is NOT updated). -/
def add_processed_block (digest : String → String) (st : DBState)
    (b : CanonicalBlock) : Bool × DBState :=
  match lookupProcessed st b.block_id with
  | some _ => (false, st)
  | none =>
      (true, { st with processed :=
        st.processed ++ [(b.block_id, calculate_content_hash digest b)] })

/-- `DatabaseManager.block_needs_processing` (manager.py:256-280): `True`
when the block id is absent from `processed_blocks`, otherwise `True` iff
the stored hash differs from the current hash. -/
def block_needs_processing (digest : String → String) (st : DBState)
    (b : CanonicalBlock) : Bool :=
  match lookupProcessed st b.block_id with
  | none => true
  | some h => decide (h ≠ calculate_content_hash digest b)

/-- `DatabaseManager.add_entity_mention` (manager.py:282-309): a single
`INSERT INTO entity_mentions`; a duplicate `(block_id, entity_name)`
primary key or a violated foreign key (`block_id` must exist in
`processed_blocks`, `entity_name` in `entities`) raises an error that is
caught and reported as `False`, with the table unchanged. -/
def add_entity_mention (st : DBState) (block_id entity_name : String) :
    Bool × DBState :=
  if lookupProcessed st block_id = none then (false, st)
  else if findEntityRow st entity_name = none then (false, st)
  else if (block_id, entity_name) ∈ st.mentions then (false, st)
  else (true, { st with mentions := st.mentions ++ [(block_id, entity_name)] })

/-- A mutating store operation, for stating invariants over arbitrary
later activity on the store. -/
inductive DBOp : Type where
  | addEntity (e : Entity) (now : Nat)
  | addProcessedBlock (b : CanonicalBlock)
  | addEntityMention (block_id entity_name : String)

/-- Apply one store operation (discarding the boolean result, as the
pipeline is free to do). -/
def applyOp (digest : String → String) (st : DBState) : DBOp → DBState
  | .addEntity e now => (add_entity st e now).2
  | .addProcessedBlock b => (add_processed_block digest st b).2
  | .addEntityMention bid name => (add_entity_mention st bid name).2

/-- Apply a sequence of store operations. -/
def applyOps (digest : String → String) (st : DBState) (ops : List DBOp) : DBState :=
  ops.foldl (applyOp digest) st

/-!  ## Importers (`kultivator/importers/`)

`get_changed_blocks` is identical in shape in `LogseqEDNImporter`
(logseq_edn.py:87-128) and `LogseqClassicEDNImporter`
(logseq_classic_edn.py:171-192); only the per-block hash function differs,
so it is a parameter `hashFn`.  The source of blocks is modelled by the
list that `get_all_blocks` returns (the claims assume no source mutation
between calls, and `get_all_blocks` performs no writes to the side-state
file in the EDN importer).  The JSON side-state file is the association
list written by `_save_current_state` (one entry per key, since it
serializes a Python dict). -/

/-- One `state[block.block_id] = block_hash` dict assignment: replace the
entry if the key is present, append otherwise. -/
def stateInsert (m : List (String × String)) (k v : String) :
    List (String × String) :=
  if m.any (fun p => p.1 = k) then
    m.map (fun p => if p.1 = k then (k, v) else p)
  else m ++ [(k, v)]

/-- Dict lookup on the side-state (`last_state[block.block_id]`); keys are
unique by construction of `stateInsert`. -/
def stateLookup (m : List (String × String)) (k : String) : Option String :=
  (m.find? (fun p => p.1 = k)).map (fun p => p.2)

/-- `_calculate_block_state` (logseq_edn.py:392-408,
logseq_classic_edn.py:194-195): the dict comprehension
`{block.block_id: hash(block) for block in blocks}`. -/
def calculate_block_state (hashFn : CanonicalBlock → String)
    (blocks : List CanonicalBlock) : List (String × String) :=
  blocks.foldl (fun m b => stateInsert m b.block_id (hashFn b)) []

/-- `get_changed_blocks` (logseq_edn.py:87-128 and
logseq_classic_edn.py:171-192).  `source` is the current result of
`get_all_blocks`; `last` is the loaded side-state (`None` when the file is
missing or unreadable).  Python's `if not last_state:` also treats an empty
dict as "no previous state".  Returns the changed blocks together with the
side-state written by `_save_current_state`. -/
def get_changed_blocks (hashFn : CanonicalBlock → String)
    (source : List CanonicalBlock) (last : Option (List (String × String))) :
    List CanonicalBlock × List (String × String) :=
  let current_state := calculate_block_state hashFn source
  match last with
  | none => (source, current_state)
  | some last_state =>
      if last_state = [] then (source, current_state)
      else
        (source.filter (fun b =>
          match stateLookup last_state b.block_id with
          | none => true
          | some h => decide (h ≠ hashFn b)), current_state)

/-- The five sample blocks built by
`LogseqEDNImporter._create_sample_logseq_blocks` (logseq_edn.py:258-374),
returned whenever no data file is found or no block can be parsed. -/
def sample_logseq_blocks : List CanonicalBlock :=
  [ .mk "logseq-journal-1" "journals/2024_05_22.edn"
      "Had a productive meeting with [[Sarah Wilson]] about the [[Data Migration Project]]."
      none none
      [ .mk "logseq-journal-1-1" "journals/2024_05_22.edn"
          "Need to follow up on the database schema changes." none none [],
        .mk "logseq-journal-1-2" "journals/2024_05_22.edn"
          "Timeline: Complete by end of month." none none [] ],
    .mk "logseq-page-1" "pages/company_notes.edn"
      "[[TechCorp Industries]] has approved the [[Cloud Infrastructure Project]]."
      none none
      [ .mk "logseq-page-1-1" "pages/company_notes.edn"
          "Budget: $75,000 allocated for Q2." none none [],
        .mk "logseq-page-1-2" "pages/company_notes.edn"
          "Team: [[Mike Chen]], [[Lisa Rodriguez]], [[Alex Kim]]." none none [] ],
    .mk "logseq-research-1" "pages/research.edn"
      "Reading [[Clean Architecture]] by [[Robert Martin]]." none none
      [ .mk "logseq-research-1-1" "pages/research.edn"
          "Chapter 3: Key insight about dependency inversion." none none [],
        .mk "logseq-research-1-2" "pages/research.edn"
          "Apply these principles to our current architecture." none none [] ],
    .mk "logseq-location-1" "journals/2024_05_24.edn"
      "Conference at [[Seattle Convention Center]] next week." none none
      [ .mk "logseq-location-1-1" "journals/2024_05_24.edn"
          "Sessions on [[Machine Learning]] and [[DevOps]]." none none [] ],
    .mk "logseq-planning-1" "pages/project_planning.edn"
      "Q3 goals for [[Mobile App Development]] initiative." none none
      [ .mk "logseq-planning-1-1" "pages/project_planning.edn"
          "Phase 1: User research and requirements gathering." none none [],
        .mk "logseq-planning-1-2" "pages/project_planning.edn"
          "Phase 2: Design and prototyping." none none [],
        .mk "logseq-planning-1-3" "pages/project_planning.edn"
          "Phase 3: Development and testing." none none [] ] ]

/-- `LogseqEDNImporter.get_all_blocks` (logseq_edn.py:53-85).  `files` is
the per-file output of `_parse_edn_file` for each file `_find_edn_files`
found (that helper catches every parse exception internally and returns the
blocks parsed so far, so a fully unparseable file contributes `[]`).  When
no file is found, or when no block at all was parsed, the importer returns
the built-in sample data instead of the empty list. -/
def edn_get_all_blocks (files : List (List CanonicalBlock)) : List CanonicalBlock :=
  if files.isEmpty then sample_logseq_blocks
  else
    let all_blocks := files.flatten
    if all_blocks.isEmpty then sample_logseq_blocks
    else all_blocks

/-- `LogseqClassicEDNImporter.get_all_blocks`
(logseq_classic_edn.py:44-74).  `file` is `none` when `_find_main_edn_file`
finds no `logseq.edn`; `some none` when reading/parsing raises or the
parsed EDN is not a map (both handled by `return []`); `some (some bs)`
when `_parse_edn_data` succeeds and yields `bs` (itself `[]` when the
`:blocks` key is missing or malformed). -/
def classic_get_all_blocks (file : Option (Option (List CanonicalBlock))) :
    List CanonicalBlock :=
  match file with
  | none => []
  | some none => []
  | some (some blocks) => blocks

/-!  ## Bootstrap confirmation guard (`src/main.py`) -/

/-- ASCII lower-casing of one character, as `str.lower` acts on the ASCII
responses compared here. -/
def asciiLower (c : Char) : Char :=
  if 'A' ≤ c ∧ c ≤ 'Z' then Char.ofNat (c.toNat + 32) else c

/-- Python whitespace stripped by `str.strip()`. -/
def isPySpace (c : Char) : Bool :=
  c = ' ' ∨ c = '\t' ∨ c = '\n' ∨ c = '\r' ∨ c.toNat = 11 ∨ c.toNat = 12

/-- `response.strip().lower()` from `confirm_bootstrap_wipe`. -/
def stripLower (s : String) : String :=
  String.mk
    ((((s.data.dropWhile isPySpace).reverse.dropWhile isPySpace).reverse).map asciiLower)

/-- `confirm_bootstrap_wipe` (main.py:293-317): repeatedly prompt; `yes`/`y`
(after `strip().lower()`) confirms, `no`/`n` declines, anything else
re-prompts.  `answers` is the stream of operator responses; `none` models
the loop never receiving a decisive answer. -/
def confirm_bootstrap_wipe : List String → Option Bool
  | [] => none
  | r :: rest =>
      let s := stripLower r
      if s = "yes" ∨ s = "y" then some true
      else if s = "no" ∨ s = "n" then some false
      else confirm_bootstrap_wipe rest

/-- The operator-visible environment touched by `run_bootstrap_pipeline`:
the `wiki/` directory, the `kultivator.db` file and the Git repository.
Contents are abstract. -/
structure World (WikiDir DBFile : Type) : Type where
  wiki : Option WikiDir
  db : Option DBFile
  git_repo : Bool

/-- Outcome marker: the declined run logs "Bootstrap cancelled by user" and
returns normally (a clean, non-error cancellation); a confirmed run
proceeds to the wipe and full pipeline. -/
inductive BootstrapOutcome : Type where
  | cancelled
  | completed
deriving DecidableEq, Repr

/-- `run_bootstrap_pipeline` (main.py:320-476), up to the boundary of the
external collaborators: the confirmation gate runs FIRST; on decline the
function returns immediately, before `shutil.rmtree(wiki)`,
`db_path.unlink()` and repository initialization.  On confirmation the wiki
directory and database are wiped, the repository is initialized, and the
rest of the pipeline (importer + agents + commits, containing the external
LLM collaborators) is the abstract `run_rest`.  The result is `none` when
the confirmation loop never terminates. -/
def run_bootstrap_pipeline {WikiDir DBFile : Type}
    (answers : List String)
    (run_rest : World WikiDir DBFile → World WikiDir DBFile)
    (w : World WikiDir DBFile) :
    Option (World WikiDir DBFile × BootstrapOutcome) :=
  match confirm_bootstrap_wipe answers with
  | none => none
  | some false => some (w, .cancelled)
  | some true =>
      some (run_rest { wiki := none, db := none, git_repo := true }, .completed)

/-!  ## Helper lemmas: characters and tokens -/

theorem char_toNat_inj {c d : Char} (h : c.toNat = d.toNat) : c = d := by
  apply Char.ext
  exact UInt32.toNat.inj h

/-- Cancellation for two tokens followed by the same terminator character,
provided neither token contains the terminator. -/
theorem token_cancel {c : Char} :
    ∀ {a b r1 r2 : List Char}, c ∉ a → c ∉ b →
      a ++ c :: r1 = b ++ c :: r2 → a = b ∧ r1 = r2 := by
  intro a
  induction a with
  | nil =>
      intro b r1 r2 _ hb h
      cases b with
      | nil => simpa using h
      | cons x xs =>
          simp only [List.nil_append, List.cons_append, List.cons.injEq] at h
          exact absurd (h.1 ▸ List.mem_cons_self x xs) hb
  | cons x xs ih =>
      intro b r1 r2 ha hb h
      cases b with
      | nil =>
          simp only [List.cons_append, List.nil_append, List.cons.injEq] at h
          exact absurd (h.1 ▸ List.mem_cons_self x xs) ha
      | cons y ys =>
          simp only [List.cons_append, List.cons.injEq] at h
          obtain ⟨hxy, htail⟩ := h
          have ha' : c ∉ xs := fun hm => ha (List.mem_cons_of_mem _ hm)
          have hb' : c ∉ ys := fun hm => hb (List.mem_cons_of_mem _ hm)
          obtain ⟨h1, h2⟩ := ih ha' hb' htail
          exact ⟨by rw [hxy, h1], h2⟩

theorem digitChar_toNat {n : Nat} (h : n < 10) : (digitChar n).toNat = 48 + n := by
  interval_cases n <;> decide

theorem digitChar_inj {m n : Nat} (hm : m < 10) (hn : n < 10)
    (h : digitChar m = digitChar n) : m = n := by
  have := congrArg Char.toNat h
  rw [digitChar_toNat hm, digitChar_toNat hn] at this
  omega

/-- Every character of a decimal numeral is an ASCII digit. -/
theorem natDec_digits : ∀ n : Nat, ∀ c ∈ natDec n, 48 ≤ c.toNat ∧ c.toNat ≤ 57 := by
  intro n
  induction n using Nat.strong_induction_on with
  | _ n ih =>
      intro c hc
      rw [natDec] at hc
      split at hc
      · next h =>
          simp only [List.mem_singleton] at hc
          subst hc
          rw [digitChar_toNat h]
          omega
      · next h =>
          rw [List.mem_append] at hc
          rcases hc with hc | hc
          · exact ih (n / 10) (Nat.div_lt_self (by omega) (by omega)) c hc
          · simp only [List.mem_singleton] at hc
            subst hc
            rw [digitChar_toNat (Nat.mod_lt _ (by omega))]
            have := Nat.mod_lt n (show 0 < 10 by omega)
            omega

theorem natDec_ne_nil (n : Nat) : natDec n ≠ [] := by
  rw [natDec]
  split <;> simp

theorem natDec_lt10 {n : Nat} (h : n < 10) : natDec n = [digitChar n] := by
  rw [natDec]
  simp [h]

theorem natDec_ge10 {n : Nat} (h : ¬n < 10) :
    natDec n = natDec (n / 10) ++ [digitChar (n % 10)] := by
  rw [natDec]
  simp [h]

theorem natDec_inj : ∀ m n : Nat, natDec m = natDec n → m = n := by
  intro m
  induction m using Nat.strong_induction_on with
  | _ m ih =>
      intro n h
      by_cases hm : m < 10 <;> by_cases hn : n < 10
      · rw [natDec_lt10 hm, natDec_lt10 hn] at h
        simp only [List.cons.injEq] at h
        exact digitChar_inj hm hn h.1
      · rw [natDec_lt10 hm, natDec_ge10 hn] at h
        have hlen := congrArg List.length h
        have hne := natDec_ne_nil (n / 10)
        cases hnd : natDec (n / 10) with
        | nil => exact absurd hnd hne
        | cons a l =>
            rw [hnd] at hlen
            simp at hlen
      · rw [natDec_ge10 hm, natDec_lt10 hn] at h
        have hlen := congrArg List.length h
        have hne := natDec_ne_nil (m / 10)
        cases hnd : natDec (m / 10) with
        | nil => exact absurd hnd hne
        | cons a l =>
            rw [hnd] at hlen
            simp at hlen
      · rw [natDec_ge10 hm, natDec_ge10 hn] at h
        have h' := List.append_inj' h (by simp)
        have hdiv := ih (m / 10) (Nat.div_lt_self (by omega) (by omega)) (n / 10) h'.1
        have hmod : m % 10 = n % 10 := by
          have h2 := h'.2
          simp only [List.cons.injEq] at h2
          exact digitChar_inj (Nat.mod_lt _ (by omega)) (Nat.mod_lt _ (by omega)) h2.1
        omega

/-- Every character of an integer numeral is an ASCII digit or `-`. -/
theorem intDec_chars (i : Int) :
    ∀ c ∈ intDec i, c = '-' ∨ (48 ≤ c.toNat ∧ c.toNat ≤ 57) := by
  intro c hc
  rw [intDec] at hc
  split at hc
  · rcases List.mem_cons.mp hc with hc | hc
    · exact Or.inl hc
    · exact Or.inr (natDec_digits _ c hc)
  · exact Or.inr (natDec_digits _ c hc)

theorem minus_not_in_natDec (k : Nat) : '-' ∉ natDec k := by
  intro hm
  have h1 := natDec_digits k _ hm
  have h2 : ('-').toNat = 45 := by decide
  omega

theorem intDec_inj {i j : Int} (h : intDec i = intDec j) : i = j := by
  rw [intDec, intDec] at h
  have hhead := minus_not_in_natDec
  split at h <;> split at h
  · next hi hj =>
      simp only [List.cons.injEq, true_and] at h
      have := natDec_inj _ _ h
      omega
  · next hi hj =>
      exfalso
      cases hd : natDec j.toNat with
      | nil => exact natDec_ne_nil _ hd
      | cons a l =>
          rw [hd] at h
          simp only [List.cons.injEq] at h
          exact hhead j.toNat (by rw [hd, ← h.1]; exact List.mem_cons_self _ _)
  · next hi hj =>
      exfalso
      cases hd : natDec i.toNat with
      | nil => exact natDec_ne_nil _ hd
      | cons a l =>
          rw [hd] at h
          simp only [List.cons.injEq] at h
          exact hhead i.toNat (by rw [hd, h.1]; exact List.mem_cons_self _ _)
  · next hi hj =>
      have := natDec_inj _ _ h
      omega

/-- `null` or a decimal integer, followed by the same terminator from
`{',', '}'}`, cancels. -/
theorem serOptInt_cancel {c : Char} (hc : c = ',' ∨ c = '}') :
    ∀ {o1 o2 : Option Int} {r1 r2 : List Char},
      serOptInt o1 ++ c :: r1 = serOptInt o2 ++ c :: r2 →
      o1 = o2 ∧ r1 = r2 := by
  have hnull : ∀ o : Option Int, c ∉ serOptInt o := by
    intro o hm
    match o with
    | none =>
        simp only [serOptInt] at hm
        rcases hc with hc | hc <;> subst hc <;> simp at hm
    | some i =>
        simp only [serOptInt] at hm
        have hch := intDec_chars i c hm
        have h44 : (',').toNat = 44 := by decide
        have h125 : ('}').toNat = 125 := by decide
        rcases hc with hc | hc <;> subst hc <;> rcases hch with h | h
        · exact absurd h (by decide)
        · omega
        · exact absurd h (by decide)
        · omega
  intro o1 o2 r1 r2 h
  obtain ⟨h1, h2⟩ := token_cancel (hnull o1) (hnull o2) h
  refine ⟨?_, h2⟩
  match o1, o2 with
  | none, none => rfl
  | none, some j =>
      exfalso
      simp only [serOptInt, intDec] at h1
      split at h1
      · simp only [List.cons.injEq] at h1
        exact absurd h1.1 (by decide)
      · have hdig := natDec_digits j.toNat 'n' (by rw [← h1]; simp)
        have h110 : ('n').toNat = 110 := by decide
        omega
  | some i, none =>
      exfalso
      simp only [serOptInt, intDec] at h1
      split at h1
      · simp only [List.cons.injEq] at h1
        exact absurd h1.1 (by decide)
      · have hdig := natDec_digits i.toNat 'n' (by rw [h1]; simp)
        have h110 : ('n').toNat = 110 := by decide
        omega
  | some i, some j =>
      simp only [serOptInt] at h1
      exact congrArg _ (intDec_inj h1)

/-!  ## Helper lemmas: JSON string escaping is uniquely decodable -/

/-- Value of a lower-case hex digit character (inverse of `hexDigit`). -/
def hexVal (c : Char) : Nat :=
  if c.toNat ≤ 57 then c.toNat - 48 else c.toNat - 87

theorem hexVal_hexDigit {n : Nat} (h : n < 16) : hexVal (hexDigit n) = n := by
  interval_cases n <;> decide

theorem decode_hex4 {n : Nat} (h : n < 0x10000) :
    hexVal (hexDigit (n / 4096 % 16)) * 4096 + hexVal (hexDigit (n / 256 % 16)) * 256 +
      hexVal (hexDigit (n / 16 % 16)) * 16 + hexVal (hexDigit (n % 16)) = n := by
  rw [hexVal_hexDigit (by omega), hexVal_hexDigit (by omega),
    hexVal_hexDigit (by omega), hexVal_hexDigit (by omega)]
  omega

/-- Decoder for the low-surrogate half of a `\uXXXX\uXXXX` pair; `v` is the
already-decoded high-surrogate unit.  Only used to prove that `escChar` is
uniquely decodable. -/
def decodePair (v : Nat) (r2 : List Char) : Option (Nat × List Char) :=
  match r2 with
  | b2 :: u2 :: l1 :: l2 :: l3 :: l4 :: r3 =>
      if b2 = '\\' ∧ u2 = 'u' then
        some (0x10000 + (v - 0xD800) * 1024 +
          (hexVal l1 * 4096 + hexVal l2 * 256 + hexVal l3 * 16 + hexVal l4 - 0xDC00), r3)
      else none
  | _ => none

/-- Decoder for the `XXXX...` part after a `\u` escape. -/
def decodeU (r : List Char) : Option (Nat × List Char) :=
  match r with
  | h1 :: h2 :: h3 :: h4 :: r2 =>
      let v := hexVal h1 * 4096 + hexVal h2 * 256 + hexVal h3 * 16 + hexVal h4
      if 0xD800 ≤ v ∧ v ≤ 0xDBFF then decodePair v r2 else some (v, r2)
  | _ => none

/-- Decoder for the escapes after a backslash. -/
def decodeEsc (rest : List Char) : Option (Nat × List Char) :=
  match rest with
  | [] => none
  | e :: r =>
      if e = '"' then some (34, r)
      else if e = '\\' then some (92, r)
      else if e = 'b' then some (8, r)
      else if e = 't' then some (9, r)
      else if e = 'n' then some (10, r)
      else if e = 'f' then some (12, r)
      else if e = 'r' then some (13, r)
      else if e = 'u' then decodeU r
      else none

/-- One-step decoder for the escaping of `escChar`: recovers the code point
of the first escaped character and the remaining input.  Only used to prove
that `escChar` is uniquely decodable. -/
def decodeChunk (l : List Char) : Option (Nat × List Char) :=
  match l with
  | [] => none
  | c :: rest => if c = '\\' then decodeEsc rest else some (c.toNat, rest)

theorem decodeChunk_escChar (c : Char) (r : List Char) :
    decodeChunk (escChar c ++ r) = some (c.toNat, r) := by
  have hvalid : c.toNat < 0xD800 ∨ (0xDFFF < c.toNat ∧ c.toNat < 0x110000) := c.valid
  unfold escChar
  split_ifs with h1 h2 h3 h4 h5 h6 h7 h8 h9
  · subst h1; simp [decodeChunk, decodeEsc]
  · subst h2; simp [decodeChunk, decodeEsc]
  · simp [decodeChunk, h2]
  · have h : c.toNat = 8 := h4
    simp [decodeChunk, decodeEsc, h]
  · have h : c.toNat = 9 := h5
    simp [decodeChunk, decodeEsc, h]
  · have h : c.toNat = 10 := h6
    simp [decodeChunk, decodeEsc, h]
  · have h : c.toNat = 12 := h7
    simp [decodeChunk, decodeEsc, h]
  · have h : c.toNat = 13 := h8
    simp [decodeChunk, decodeEsc, h]
  · -- single `\uXXXX` escape, c.toNat < 0x10000 and not a surrogate
    simp only [hex4, List.cons_append, List.nil_append]
    simp only [decodeChunk, decodeEsc, decodeU, reduceIte]
    rw [decode_hex4 h9]
    have hns : ¬(0xD800 ≤ c.toNat ∧ c.toNat ≤ 0xDBFF) := by omega
    simp [hns]
  · -- astral code point: surrogate pair
    have hge : 0x10000 ≤ c.toNat := by omega
    have hlt : c.toNat < 0x110000 := by omega
    simp only [hex4, List.cons_append, List.nil_append, List.append_assoc]
    simp only [decodeChunk, decodeEsc, decodeU, reduceIte]
    rw [decode_hex4 (by omega : 0xD800 + (c.toNat - 0x10000) / 1024 < 0x10000)]
    have hsub : (c.toNat - 0x10000) / 1024 < 1024 := by omega
    have hsurr : 0xD800 ≤ 0xD800 + (c.toNat - 0x10000) / 1024 ∧
        0xD800 + (c.toNat - 0x10000) / 1024 ≤ 0xDBFF := ⟨by omega, by omega⟩
    rw [if_pos hsurr]
    simp only [decodePair, reduceIte, and_self]
    rw [decode_hex4 (by omega : 0xDC00 + (c.toNat - 0x10000) % 1024 < 0x10000)]
    have harith : 0x10000 + (0xD800 + (c.toNat - 0x10000) / 1024 - 0xD800) * 1024 +
        (0xDC00 + (c.toNat - 0x10000) % 1024 - 0xDC00) = c.toNat := by omega
    rw [harith]
    simp

/-- The escape chunks are uniquely decodable: equal chunk-streams start
with the same character. -/
theorem escChar_cancel {c1 c2 : Char} {t1 t2 : List Char}
    (h : escChar c1 ++ t1 = escChar c2 ++ t2) : c1 = c2 ∧ t1 = t2 := by
  have d1 := decodeChunk_escChar c1 t1
  rw [h, decodeChunk_escChar c2 t2] at d1
  simp only [Option.some.injEq, Prod.mk.injEq] at d1
  exact ⟨char_toNat_inj d1.1.symm, d1.2.symm⟩

/-- Every chunk is nonempty and never starts with an unescaped quote. -/
theorem escChar_head (c : Char) : ∃ d t, escChar c = d :: t ∧ d ≠ '"' := by
  unfold escChar
  split_ifs with h1 h2 h3 h4 h5 h6 h7 h8 h9
  · exact ⟨'\\', _, rfl, by decide⟩
  · exact ⟨'\\', _, rfl, by decide⟩
  · exact ⟨c, [], rfl, h1⟩
  · exact ⟨'\\', _, rfl, by decide⟩
  · exact ⟨'\\', _, rfl, by decide⟩
  · exact ⟨'\\', _, rfl, by decide⟩
  · exact ⟨'\\', _, rfl, by decide⟩
  · exact ⟨'\\', _, rfl, by decide⟩
  · exact ⟨'\\', _, rfl, by decide⟩
  · exact ⟨'\\', _, rfl, by decide⟩

/-- A quote-terminated escaped string cancels. -/
theorem escList_cancel : ∀ (s1 s2 t1 t2 : List Char),
    escList s1 ++ '"' :: t1 = escList s2 ++ '"' :: t2 → s1 = s2 ∧ t1 = t2 := by
  intro s1
  induction s1 with
  | nil =>
      intro s2 t1 t2 h
      cases s2 with
      | nil => simpa using h
      | cons c cs =>
          exfalso
          obtain ⟨d, t, hd, hne⟩ := escChar_head c
          simp only [escList, List.nil_append, hd, List.cons_append,
            List.append_assoc, List.cons.injEq] at h
          exact hne h.1.symm
  | cons c1 cs1 ih =>
      intro s2 t1 t2 h
      cases s2 with
      | nil =>
          exfalso
          obtain ⟨d, t, hd, hne⟩ := escChar_head c1
          simp only [escList, List.nil_append, hd, List.cons_append,
            List.append_assoc, List.cons.injEq] at h
          exact hne h.1
      | cons c2 cs2 =>
          simp only [escList, List.append_assoc] at h
          obtain ⟨hc, ht⟩ := escChar_cancel h
          obtain ⟨hs, ht'⟩ := ih cs2 t1 t2 ht
          exact ⟨by rw [hc, hs], ht'⟩

theorem string_data_inj {a b : String} (h : a.data = b.data) : a = b := by
  cases a
  cases b
  exact congrArg String.mk h

/-- A JSON string literal followed by anything cancels. -/
theorem qstr_cancel {a b : String} {r1 r2 : List Char}
    (h : qstr a ++ r1 = qstr b ++ r2) : a = b ∧ r1 = r2 := by
  simp only [qstr, List.cons_append, List.append_assoc, List.cons.injEq,
    List.nil_append, true_and] at h
  obtain ⟨hs, ht⟩ := escList_cancel a.data b.data r1 r2 h
  exact ⟨string_data_inj hs, ht⟩

/-!  ## Injectivity of the canonical JSON serialization -/

theorem serBlockDB_head (b : CanonicalBlock) : ∃ u, serBlockDB b = '{' :: u := by
  cases b
  simp only [serBlockDB, litOpen, List.cons_append, List.append_assoc]
  exact ⟨_, rfl⟩

theorem litSource_split (X : List Char) :
    litSource ++ X =
      ',' :: ([' ', '"', 's', 'o', 'u', 'r', 'c', 'e', '_', 'r', 'e', 'f', '"', ':', ' '] ++ X) := by
  simp [litSource]

theorem serBlockDB_cancel_aux : ∀ n : Nat,
    (∀ b1 b2 : CanonicalBlock, ∀ t1 t2 : List Char, sizeOf b1 ≤ n →
      serBlockDB b1 ++ t1 = serBlockDB b2 ++ t2 → b1 = b2 ∧ t1 = t2) ∧
    (∀ l1 l2 : List CanonicalBlock, ∀ t1 t2 : List Char, sizeOf l1 ≤ n →
      serTailDB l1 ++ t1 = serTailDB l2 ++ t2 → l1 = l2 ∧ t1 = t2) := by
  intro n
  induction n with
  | zero =>
      constructor
      · intro b1 b2 t1 t2 hle _
        exfalso
        cases b1
        simp only [CanonicalBlock.mk.sizeOf_spec] at hle
        omega
      · intro l1 l2 t1 t2 hle _
        exfalso
        cases l1 with
        | nil =>
            simp only [List.nil.sizeOf_spec] at hle
            omega
        | cons a l =>
            simp only [List.cons.sizeOf_spec] at hle
            omega
  | succ n ih =>
      have ihb := ih.1
      have iht := ih.2
      constructor
      · -- blocks
        intro b1 b2 t1 t2 hle h
        cases b1 with
        | mk i1 s1 c1 ca1 ua1 ch1 =>
        cases b2 with
        | mk i2 s2 c2 ca2 ua2 ch2 =>
        have hch1 : sizeOf ch1 ≤ n := by
          simp at hle
          omega
        simp only [serBlockDB, List.append_assoc, List.singleton_append] at h
        replace h := List.append_cancel_left h
        obtain ⟨hid, h⟩ := qstr_cancel h
        replace h := List.append_cancel_left h
        -- serListDB ch1 ++ R1 = serListDB ch2 ++ R2
        have hlist : ch1 = ch2 ∧
            litContent ++ (qstr c1 ++ (litCreated ++ (serOptInt ca1 ++
              (litSource ++ (qstr s1 ++ (litUpdated ++ (serOptInt ua1 ++ '}' :: t1))))))) =
            litContent ++ (qstr c2 ++ (litCreated ++ (serOptInt ca2 ++
              (litSource ++ (qstr s2 ++ (litUpdated ++ (serOptInt ua2 ++ '}' :: t2))))))) := by
          cases ch1 with
          | nil =>
              cases ch2 with
              | nil =>
                  simp only [serListDB, List.cons_append, List.nil_append,
                    List.cons.injEq, true_and] at h
                  exact ⟨rfl, h⟩
              | cons b bs =>
                  exfalso
                  obtain ⟨u, hu⟩ := serBlockDB_head b
                  simp only [serListDB, hu, List.cons_append, List.nil_append,
                    List.append_assoc, List.cons.injEq] at h
                  exact absurd h.2.1 (by decide)
          | cons b1' bs1 =>
              cases ch2 with
              | nil =>
                  exfalso
                  obtain ⟨u, hu⟩ := serBlockDB_head b1'
                  simp only [serListDB, hu, List.cons_append, List.nil_append,
                    List.append_assoc, List.cons.injEq] at h
                  exact absurd h.2.1 (by decide)
              | cons b2' bs2 =>
                  simp only [serListDB, List.cons_append, List.append_assoc,
                    List.cons.injEq, true_and] at h
                  have hb1 : sizeOf b1' ≤ n := by
                    have := List.cons.sizeOf_spec b1' bs1
                    omega
                  obtain ⟨hb, h⟩ := ihb b1' b2' _ _ hb1 h
                  have hbs1 : sizeOf bs1 ≤ n := by
                    have := List.cons.sizeOf_spec b1' bs1
                    have h0 : 0 ≤ sizeOf b1' := Nat.zero_le _
                    omega
                  obtain ⟨hbs, h⟩ := iht bs1 bs2 _ _ hbs1 h
                  exact ⟨by rw [hb, hbs], h⟩
        obtain ⟨hch, h⟩ := hlist
        replace h := List.append_cancel_left h
        obtain ⟨hcont, h⟩ := qstr_cancel h
        replace h := List.append_cancel_left h
        rw [litSource_split, litSource_split] at h
        obtain ⟨hca, h⟩ := serOptInt_cancel (Or.inl rfl) h
        replace h := List.append_cancel_left h
        obtain ⟨hsrc, h⟩ := qstr_cancel h
        replace h := List.append_cancel_left h
        obtain ⟨hua, ht⟩ := serOptInt_cancel (Or.inr rfl) h
        refine ⟨?_, ht⟩
        simp only [CanonicalBlock.mk.injEq]
        exact ⟨hid, hsrc, hcont, hca, hua, hch⟩
      · -- list tails
        intro l1 l2 t1 t2 hle h
        cases l1 with
        | nil =>
            cases l2 with
            | nil =>
                simp only [serTailDB, List.cons_append, List.nil_append,
                  List.cons.injEq, true_and] at h
                exact ⟨rfl, h⟩
            | cons b bs =>
                exfalso
                simp only [serTailDB, List.cons_append, List.nil_append,
                  List.append_assoc, List.cons.injEq] at h
                exact absurd h.1 (by decide)
        | cons b1' bs1 =>
            cases l2 with
            | nil =>
                exfalso
                simp only [serTailDB, List.cons_append, List.nil_append,
                  List.append_assoc, List.cons.injEq] at h
                exact absurd h.1 (by decide)
            | cons b2' bs2 =>
                simp only [serTailDB, List.cons_append, List.append_assoc,
                  List.cons.injEq, true_and] at h
                have hb1 : sizeOf b1' ≤ n := by
                  have := List.cons.sizeOf_spec b1' bs1
                  omega
                obtain ⟨hb, h⟩ := ihb b1' b2' _ _ hb1 h
                have hbs1 : sizeOf bs1 ≤ n := by
                  have := List.cons.sizeOf_spec b1' bs1
                  omega
                obtain ⟨hbs, h⟩ := iht bs1 bs2 _ _ hbs1 h
                exact ⟨by rw [hb, hbs], h⟩

/-- The DB-layer canonical JSON serialization is injective: structurally
different blocks always serialize to different strings. -/
theorem serBlockDB_inj {b1 b2 : CanonicalBlock}
    (h : serBlockDB b1 = serBlockDB b2) : b1 = b2 := by
  have := ((serBlockDB_cancel_aux (sizeOf b1)).1 b1 b2 [] []
    (Nat.le_refl _) (by simpa using h))
  exact this.1

/-- The compact serialization of the classic importer differs from the DB
serialization on every block: the 13th character is the opening quote of
the `block_id` value in one and the space of the `": "` separator in the
other. -/
theorem serBlockC_ne_serBlockDB (b : CanonicalBlock) :
    serBlockC b ≠ serBlockDB b := by
  cases b
  intro h
  simp [serBlockC, serBlockDB, litOpenC, litOpen, qstr, List.cons_append,
    List.append_assoc] at h

theorem serOptInt_len_pos (o : Option Int) : 1 ≤ (serOptInt o).length := by
  match o with
  | none => simp [serOptInt]
  | some i =>
      simp only [serOptInt, intDec]
      split
      · simp
      · cases hd : natDec i.toNat with
        | nil => exact absurd hd (natDec_ne_nil _)
        | cons a l => simp [hd]

theorem serE_len_aux : ∀ n : Nat,
    (∀ b : CanonicalBlock, sizeOf b ≤ n →
      (serBlockE b).length < (serBlockDB b).length) ∧
    (∀ l : List CanonicalBlock, sizeOf l ≤ n →
      (serTailE l).length ≤ (serTailDB l).length) := by
  intro n
  induction n with
  | zero =>
      constructor
      · intro b hle
        exfalso
        cases b
        simp only [CanonicalBlock.mk.sizeOf_spec] at hle
        omega
      · intro l hle
        exfalso
        cases l with
        | nil =>
            simp only [List.nil.sizeOf_spec] at hle
            omega
        | cons a l' =>
            simp only [List.cons.sizeOf_spec] at hle
            omega
  | succ n ih =>
      constructor
      · intro b hle
        cases b with
        | mk i s c ca ua ch =>
        have hch : sizeOf ch ≤ n := by
          simp only [CanonicalBlock.mk.sizeOf_spec] at hle
          omega
        have hlist : (serListE ch).length ≤ (serListDB ch).length := by
          cases ch with
          | nil => simp [serListE, serListDB]
          | cons b' bs =>
              have hspec := List.cons.sizeOf_spec b' bs
              have hb : sizeOf b' ≤ n := by omega
              have hbs : sizeOf bs ≤ n := by omega
              have h1 := Nat.le_of_lt (ih.1 b' hb)
              have h2 := ih.2 bs hbs
              simp only [serListE, serListDB, List.length_cons, List.length_append]
              omega
        have hca := serOptInt_len_pos ca
        have hua := serOptInt_len_pos ua
        simp only [serBlockE, serBlockDB, List.length_append, litOpen, litChildren,
          litContent, litCreated, litSource, litUpdated, qstr, List.length_cons,
          List.length_nil]
        omega
      · intro l hle
        cases l with
        | nil => exact Nat.le_refl _
        | cons b' bs =>
            have hspec := List.cons.sizeOf_spec b' bs
            have hb : sizeOf b' ≤ n := by omega
            have hbs : sizeOf bs ≤ n := by omega
            have h1 := Nat.le_of_lt (ih.1 b' hb)
            have h2 := ih.2 bs hbs
            simp only [serTailE, serTailDB, List.length_cons, List.length_append]
            omega

/-- The EDN importer's serialization is strictly shorter than the DB
serialization (it omits the `created_at`/`updated_at` members at every
node), hence differs from it on every block. -/
theorem serBlockE_ne_serBlockDB (b : CanonicalBlock) :
    serBlockE b ≠ serBlockDB b := by
  intro h
  have := (serE_len_aux (sizeOf b)).1 b (Nat.le_refl _)
  rw [h] at this
  omega

/-!  ## Helper lemmas: the state store -/

/-- Once a `processed_blocks` row exists, no store operation ever changes
it: `add_processed_block` fails on a duplicate key without updating, and
the other operations do not touch the table. -/
theorem lookupProcessed_applyOp (digest : String → String) (st : DBState)
    (op : DBOp) (bid h : String) (hl : lookupProcessed st bid = some h) :
    lookupProcessed (applyOp digest st op) bid = some h := by
  cases op with
  | addEntity e now =>
      simp only [applyOp, add_entity]
      cases findEntityRow st e.name <;> exact hl
  | addProcessedBlock b =>
      simp only [applyOp, add_processed_block]
      cases hb : lookupProcessed st b.block_id with
      | some _ => exact hl
      | none =>
          simp only [lookupProcessed] at hl ⊢
          cases hf : st.processed.find? (fun p => p.1 = bid) with
          | none => rw [hf] at hl; simp at hl
          | some p =>
              rw [List.find?_append, hf]
              rw [hf] at hl
              exact hl
  | addEntityMention bid' name' =>
      simp only [applyOp, add_entity_mention]
      split_ifs <;> exact hl

theorem lookupProcessed_applyOps (digest : String → String)
    (ops : List DBOp) : ∀ (st : DBState) (bid h : String),
    lookupProcessed st bid = some h →
    lookupProcessed (applyOps digest st ops) bid = some h := by
  induction ops with
  | nil => intro st bid h hl; exact hl
  | cons op rest ih =>
      intro st bid h hl
      exact ih _ bid h (lookupProcessed_applyOp digest st op bid h hl)

/-- Unfolding `add_processed_block` when it succeeds. -/
theorem add_processed_block_true {digest : String → String} {st st1 : DBState}
    {b : CanonicalBlock} (h : add_processed_block digest st b = (true, st1)) :
    lookupProcessed st b.block_id = none ∧
    st1 = { st with processed :=
      st.processed ++ [(b.block_id, calculate_content_hash digest b)] } := by
  unfold add_processed_block at h
  cases hl : lookupProcessed st b.block_id with
  | some _ => rw [hl] at h; simp at h
  | none =>
      rw [hl] at h
      simp only [Prod.mk.injEq, true_and] at h
      exact ⟨rfl, h.symm⟩

theorem lookupProcessed_after_insert {digest : String → String} {st : DBState}
    {b : CanonicalBlock} (hl : lookupProcessed st b.block_id = none) :
    lookupProcessed
      { st with processed :=
        st.processed ++ [(b.block_id, calculate_content_hash digest b)] }
      b.block_id = some (calculate_content_hash digest b) := by
  simp only [lookupProcessed] at hl ⊢
  cases hf : st.processed.find? (fun p => p.1 = b.block_id) with
  | some p => rw [hf] at hl; simp at hl
  | none =>
      rw [List.find?_append, hf]
      simp

/-!  ## Claim theorems -/

/-- C1: the spec claims that reprocessing a changed node replaces its
persisted hash record (`processed(H1) → processed(H2)`).  The code cannot
do this: `add_processed_block` only ever INSERTs and returns `False` on a
duplicate `block_id` without updating the row, and `run_incremental_pipeline`
simply calls it.  At the concrete failing input below — a block first
processed with content "Met [[Alice]]", then changed to
"Met [[Alice]] again" and run through the incremental pipeline's
`db.add_processed_block(block)` — the stored hash remains the OLD hash,
which differs from the hash of the new subtree. -/
theorem c1_stale_hash_after_change :
    add_processed_block (fun s => s)
      (add_processed_block (fun s => s) DBState.empty
        (.mk "block-1" "journals/a.md#block-1" "Met [[Alice]]" none none [])).2
      (.mk "block-1" "journals/a.md#block-1" "Met [[Alice]] again" none none []) =
    (false,
      (add_processed_block (fun s => s) DBState.empty
        (.mk "block-1" "journals/a.md#block-1" "Met [[Alice]]" none none [])).2) ∧
    lookupProcessed
      (add_processed_block (fun s => s) DBState.empty
        (.mk "block-1" "journals/a.md#block-1" "Met [[Alice]]" none none [])).2
      "block-1" =
      some (calculate_content_hash (fun s => s)
        (.mk "block-1" "journals/a.md#block-1" "Met [[Alice]]" none none [])) ∧
    calculate_content_hash (fun s => s)
        (.mk "block-1" "journals/a.md#block-1" "Met [[Alice]]" none none []) ≠
      calculate_content_hash (fun s => s)
        (.mk "block-1" "journals/a.md#block-1" "Met [[Alice]] again" none none []) := by
  refine ⟨by decide, by decide, by decide⟩

/-- C2: after `add_processed_block` succeeds for block `b`, no sequence of
further store operations makes `block_needs_processing b` true again (the
stored row never changes and `b`'s hash is a function of its subtree); and
`block_needs_processing` is true exactly when `b`'s id is absent from
`processed_blocks` or the stored hash differs from the hash of `b`'s
current subtree. -/
theorem c2_processing_idempotency (digest : String → String) (st st1 : DBState)
    (b : CanonicalBlock) (ops : List DBOp)
    (h : add_processed_block digest st b = (true, st1)) :
    block_needs_processing digest (applyOps digest st1 ops) b = false ∧
    (∀ st' : DBState, block_needs_processing digest st' b = true ↔
      (lookupProcessed st' b.block_id = none ∨
       lookupProcessed st' b.block_id ≠ some (calculate_content_hash digest b))) := by
  constructor
  · obtain ⟨hnone, hst1⟩ := add_processed_block_true h
    have hl1 : lookupProcessed st1 b.block_id =
        some (calculate_content_hash digest b) := by
      rw [hst1]
      exact lookupProcessed_after_insert hnone
    have hl2 := lookupProcessed_applyOps digest ops st1 _ _ hl1
    simp [block_needs_processing, hl2]
  · intro st'
    unfold block_needs_processing
    cases hl : lookupProcessed st' b.block_id with
    | none => simp
    | some hsh => simp [decide_eq_true_eq]

/-- C5: `add_entity_mention` fails softly — returns `False`, inserts
nothing, and (being a total function in this model, as the Python catches
every storage exception) raises nothing — whenever the referenced block is
not in `processed_blocks`, the entity is not in `entities`, or the same
mention already exists. -/
theorem c5_add_mention_soft_failure (st : DBState) (bid name : String) :
    ((lookupProcessed st bid = none ∨ findEntityRow st name = none) →
      add_entity_mention st bid name = (false, st)) ∧
    ((bid, name) ∈ st.mentions → add_entity_mention st bid name = (false, st)) := by
  constructor
  · intro h
    unfold add_entity_mention
    rcases h with h | h
    · rw [if_pos h]
    · split_ifs <;> rfl
  · intro h
    unfold add_entity_mention
    split_ifs <;> rfl

/-- C10: when an entity name already exists, `add_entity` is a no-op that
returns `False`: the stored row — including its `wiki_path` — survives
unchanged, so the incremental pipeline's "update with new path" call
(`db.add_entity(existing_entity)` in `run_incremental_pipeline`) does not
persist a modified path. -/
theorem c10_add_entity_no_update (st : DBState) (name : String) (e0 e1 : Entity)
    (now : Nat) (h : get_entity st name = some e0) (hn : e1.name = name) :
    add_entity st e1 now = (false, st) ∧
    get_entity (add_entity st e1 now).2 name = some e0 := by
  have hrow : ∃ row, findEntityRow st name = some row := by
    unfold get_entity at h
    cases hf : findEntityRow st name with
    | none => rw [hf] at h; simp at h
    | some row => exact ⟨row, rfl⟩
  obtain ⟨row, hrow⟩ := hrow
  have h1 : add_entity st e1 now = (false, st) := by
    unfold add_entity
    rw [hn, hrow]
  exact ⟨h1, by rw [h1]; exact h⟩

/-- C9: declining the bootstrap confirmation produces a clean cancellation
with no side effects: the world (wiki directory, database file, repository
state) is returned unchanged and the outcome is the logged, non-error
`cancelled` marker — the wipe, repository creation and pipeline are never
reached. -/
theorem c9_bootstrap_decline_no_side_effects {WikiDir DBFile : Type}
    (answers : List String)
    (run_rest : World WikiDir DBFile → World WikiDir DBFile)
    (w : World WikiDir DBFile)
    (h : confirm_bootstrap_wipe answers = some false) :
    run_bootstrap_pipeline answers run_rest w = some (w, BootstrapOutcome.cancelled) := by
  unfold run_bootstrap_pipeline
  rw [h]

/-- C6: inserting a fresh entity name succeeds once; a second insert of the
same name (no uncaught error — the model is total, mirroring the caught
`IntegrityError`) returns `False`, and `list_entities` then holds exactly
one record with that name. -/
theorem c6_entity_uniqueness (st : DBState) (e e' : Entity) (now1 now2 : Nat)
    (hname : e'.name = e.name) (habs : findEntityRow st e.name = none) :
    (add_entity st e now1).1 = true ∧
    (add_entity (add_entity st e now1).2 e' now2).1 = false ∧
    (list_entities (add_entity (add_entity st e now1).2 e' now2).2 none).countP
      (fun x => x.name = e.name) = 1 := by
  have h1 : add_entity st e now1 =
      (true, { st with entities :=
        st.entities ++ [⟨e.name, e.entity_type, e.wiki_path, now1, now1⟩] }) := by
    unfold add_entity
    rw [habs]
  have hrow2 : findEntityRow
      { st with entities :=
        st.entities ++ [⟨e.name, e.entity_type, e.wiki_path, now1, now1⟩] }
      e'.name = some ⟨e.name, e.entity_type, e.wiki_path, now1, now1⟩ := by
    unfold findEntityRow at habs ⊢
    rw [hname, List.find?_append, habs]
    simp
  have h2 : add_entity (add_entity st e now1).2 e' now2 =
      (false, (add_entity st e now1).2) := by
    rw [h1]
    unfold add_entity
    rw [hrow2]
  refine ⟨by rw [h1], by rw [h2], ?_⟩
  rw [h2, h1]
  have hperm := List.mergeSort_perm
    ((({ st with entities :=
      st.entities ++ [⟨e.name, e.entity_type, e.wiki_path, now1, now1⟩] } :
        DBState).entities).map
      (fun r => (⟨r.name, r.entity_type, r.wiki_path⟩ : Entity)))
    (fun a b => a.name ≤ b.name)
  unfold list_entities
  rw [hperm.countP_eq]
  rw [List.countP_map, List.countP_append]
  simp only [Function.comp, List.countP_cons, List.countP_nil]
  simp
  intro r hr
  have := List.find?_eq_none.mp habs r hr
  simpa using this

/-!  ## Helper lemmas: the incremental scan -/

theorem calculate_block_state_eq (hashFn : CanonicalBlock → String) :
    ∀ (source : List CanonicalBlock) (acc : List (String × String)),
    (∀ b ∈ source, ∀ p ∈ acc, p.1 ≠ b.block_id) →
    (source.map CanonicalBlock.block_id).Nodup →
    source.foldl (fun m b => stateInsert m b.block_id (hashFn b)) acc =
      acc ++ source.map (fun b => (b.block_id, hashFn b)) := by
  intro source
  induction source with
  | nil => intro acc _ _; simp
  | cons b bs ih =>
      intro acc hdisj hnd
      have hany : acc.any (fun p => p.1 = b.block_id) = false := by
        rw [List.any_eq_false]
        intro p hp
        simpa using hdisj b (List.mem_cons_self _ _) p hp
      have hstep : stateInsert acc b.block_id (hashFn b) =
          acc ++ [(b.block_id, hashFn b)] := by
        unfold stateInsert
        rw [hany]
        simp
      simp only [List.foldl_cons, hstep]
      have hnd' : (bs.map CanonicalBlock.block_id).Nodup := by
        simp only [List.map_cons, List.nodup_cons] at hnd
        exact hnd.2
      have hnotin : b.block_id ∉ bs.map CanonicalBlock.block_id := by
        simp only [List.map_cons, List.nodup_cons] at hnd
        exact hnd.1
      have hdisj' : ∀ b' ∈ bs, ∀ p ∈ acc ++ [(b.block_id, hashFn b)],
          p.1 ≠ b'.block_id := by
        intro b' hb' p hp
        rcases List.mem_append.mp hp with hp | hp
        · exact hdisj b' (List.mem_cons_of_mem _ hb') p hp
        · simp only [List.mem_singleton] at hp
          subst hp
          intro hcon
          exact hnotin (by
            simp only [List.mem_map]
            exact ⟨b', hb', hcon.symm⟩)
      rw [ih _ hdisj' hnd']
      simp

theorem stateLookup_map (hashFn : CanonicalBlock → String) :
    ∀ (source : List CanonicalBlock) (b : CanonicalBlock),
    (source.map CanonicalBlock.block_id).Nodup → b ∈ source →
    stateLookup (source.map (fun x => (x.block_id, hashFn x))) b.block_id =
      some (hashFn b) := by
  intro source
  induction source with
  | nil => intro b _ hb; simp at hb
  | cons x xs ih =>
      intro b hnd hb
      simp only [List.map_cons, List.nodup_cons] at hnd
      rcases List.mem_cons.mp hb with hb | hb
      · subst hb
        unfold stateLookup
        simp
      · have hne : x.block_id ≠ b.block_id := by
          intro hcon
          exact hnd.1 (by
            simp only [List.mem_map]
            exact ⟨b, hb, hcon.symm⟩)
        unfold stateLookup at ih ⊢
        simp only [List.map_cons, List.find?_cons]
        rw [show (decide (x.block_id = b.block_id)) = false from by simp [hne]]
        exact ih b hnd.2 hb

/-- The side-state written by any `get_changed_blocks` call is always the
freshly computed state of the current blocks. -/
theorem get_changed_blocks_snd (hashFn : CanonicalBlock → String)
    (source : List CanonicalBlock) (last : Option (List (String × String))) :
    (get_changed_blocks hashFn source last).2 =
      calculate_block_state hashFn source := by
  unfold get_changed_blocks
  cases last with
  | none => rfl
  | some l =>
      by_cases hl : l = [] <;> simp [hl]

/-- C3: after any successful `scan_changed` (`get_changed_blocks`) call, a
second call with the same source (no intervening mutation) returns the
empty list, because the side-state file now records every current block's
hash.  The hypothesis is the canonical-tree invariant that block ids are
unique within a run. -/
theorem c3_incremental_scan_idempotent (hashFn : CanonicalBlock → String)
    (source : List CanonicalBlock) (last : Option (List (String × String)))
    (hnd : (source.map CanonicalBlock.block_id).Nodup) :
    (get_changed_blocks hashFn source
      (some (get_changed_blocks hashFn source last).2)).1 = [] := by
  rw [get_changed_blocks_snd]
  have hstate : calculate_block_state hashFn source =
      source.map (fun b => (b.block_id, hashFn b)) := by
    unfold calculate_block_state
    exact calculate_block_state_eq hashFn source [] (by simp) hnd
  rw [hstate]
  by_cases hsrc : source = []
  · subst hsrc
    rfl
  · have hne : source.map (fun b => (b.block_id, hashFn b)) ≠ [] := by
      cases source with
      | nil => exact absurd rfl hsrc
      | cons b bs => simp
    unfold get_changed_blocks
    dsimp only
    rw [if_neg hne]
    dsimp only
    rw [List.filter_eq_nil_iff]
    intro a ha
    rw [stateLookup_map hashFn source a hnd ha]
    simp

/-- C4 counterexample: the claim says that with an absent (or unparseable)
source file every importer's `get_all_blocks` returns the empty list; but
`LogseqEDNImporter.get_all_blocks` with no data file found returns the
built-in five-block sample dataset instead. -/
theorem c4_counterexample : edn_get_all_blocks [] ≠ [] := by
  simp [edn_get_all_blocks, sample_logseq_blocks]

/-- C4 amended: on an absent or unparseable source no exception escapes
(the model functions are total) and: the classic importer returns the
empty list, while the EDN importer degrades to the built-in sample
dataset — both when no data file is found and when the found files yield
no blocks — rather than to the empty list. -/
theorem c4_get_all_blocks_degraded :
    classic_get_all_blocks none = [] ∧
    classic_get_all_blocks (some none) = [] ∧
    edn_get_all_blocks [] = sample_logseq_blocks ∧
    edn_get_all_blocks [[], []] = sample_logseq_blocks := by
  refine ⟨rfl, rfl, rfl, rfl⟩

/-- C7: change sensitivity of the content hash.  `digest` stands for
SHA-256, which the spec takes to be collision-free (injective on the
inputs that occur); under that hypothesis any two structurally different
trees — in particular any mutation of the content, id, or source_ref of
any node at any depth — hash differently, because the canonical JSON
serialization is injective. -/
theorem c7_change_sensitivity (digest : String → String)
    (hdig : Function.Injective digest) (T U : CanonicalBlock) (hne : T ≠ U) :
    calculate_content_hash digest T ≠ calculate_content_hash digest U := by
  intro h
  apply hne
  apply serBlockDB_inj
  have hs := hdig h
  exact congrArg String.data hs

/-- C8 counterexample: the claim says the importer-layer hash and the
store hash are the same digest of every block.  Both are SHA-256 of a
serialized string, so they coincide only if SHA-256 is fed the same
bytes; at this concrete block the three serializations pairwise differ
(the EDN importer omits the timestamp fields, the classic importer uses
compact separators). -/
theorem c8_counterexample :
    serBlockE (.mk "b1" "pages/p.edn#b1" "hello" none none []) ≠
      serBlockDB (.mk "b1" "pages/p.edn#b1" "hello" none none []) ∧
    serBlockC (.mk "b1" "pages/p.edn#b1" "hello" none none []) ≠
      serBlockDB (.mk "b1" "pages/p.edn#b1" "hello" none none []) := by
  refine ⟨by decide, by decide⟩

/-- C8 amended: for every block the serialized string hashed by
`LogseqEDNImporter._calculate_block_hash` (timestamps omitted) and the one
hashed by `LogseqClassicEDNImporter._calculate_block_hash` (compact
separators) each differ from the string hashed by
`DatabaseManager.calculate_content_hash`, so the change detector and the
processed-block store compute digests of different data, not the same
digest. -/
theorem c8_hashes_disagree (b : CanonicalBlock) :
    serBlockE b ≠ serBlockDB b ∧ serBlockC b ≠ serBlockDB b :=
  ⟨serBlockE_ne_serBlockDB b, serBlockC_ne_serBlockDB b⟩

/-!  ## Witnesses -/

theorem c2_processing_idempotency_witness :
    block_needs_processing (fun s => s)
      (applyOps (fun s => s)
        (add_processed_block (fun s => s) DBState.empty
          (.mk "b1" "j.md#b1" "hello [[Alice]]" none none [])).2
        [.addEntity ⟨"Alice", "person", some "wiki/People/Alice.md"⟩ 7,
         .addEntityMention "b1" "Alice",
         .addProcessedBlock (.mk "b1" "j.md#b1" "changed" none none [])])
      (.mk "b1" "j.md#b1" "hello [[Alice]]" none none []) = false :=
  (c2_processing_idempotency (fun s => s) DBState.empty
    (add_processed_block (fun s => s) DBState.empty
      (.mk "b1" "j.md#b1" "hello [[Alice]]" none none [])).2
    (.mk "b1" "j.md#b1" "hello [[Alice]]" none none [])
    [.addEntity ⟨"Alice", "person", some "wiki/People/Alice.md"⟩ 7,
     .addEntityMention "b1" "Alice",
     .addProcessedBlock (.mk "b1" "j.md#b1" "changed" none none [])]
    (by decide)).1

theorem c3_incremental_scan_idempotent_witness :
    (get_changed_blocks (calculate_block_hash_edn (fun s => s))
      [.mk "b1" "j.md#b1" "hello" none none [],
       .mk "b2" "j.md#b2" "world" none none []]
      (some (get_changed_blocks (calculate_block_hash_edn (fun s => s))
        [.mk "b1" "j.md#b1" "hello" none none [],
         .mk "b2" "j.md#b2" "world" none none []] none).2)).1 = [] :=
  c3_incremental_scan_idempotent (calculate_block_hash_edn (fun s => s))
    [.mk "b1" "j.md#b1" "hello" none none [],
     .mk "b2" "j.md#b2" "world" none none []] none (by decide)

theorem c5_add_mention_soft_failure_witness :
    add_entity_mention DBState.empty "b1" "Alice" = (false, DBState.empty) :=
  (c5_add_mention_soft_failure DBState.empty "b1" "Alice").1 (Or.inl rfl)

theorem c6_entity_uniqueness_witness :
    (add_entity DBState.empty ⟨"Alice", "person", some "wiki/People/Alice.md"⟩ 1).1 = true ∧
    (add_entity
      (add_entity DBState.empty ⟨"Alice", "person", some "wiki/People/Alice.md"⟩ 1).2
      ⟨"Alice", "project", none⟩ 2).1 = false ∧
    (list_entities
      (add_entity
        (add_entity DBState.empty ⟨"Alice", "person", some "wiki/People/Alice.md"⟩ 1).2
        ⟨"Alice", "project", none⟩ 2).2 none).countP
      (fun x => x.name = (⟨"Alice", "person", some "wiki/People/Alice.md"⟩ : Entity).name) = 1 :=
  c6_entity_uniqueness DBState.empty
    ⟨"Alice", "person", some "wiki/People/Alice.md"⟩ ⟨"Alice", "project", none⟩ 1 2
    rfl rfl

theorem c7_change_sensitivity_witness :
    calculate_content_hash (fun s => s)
      (.mk "b1" "j.md#b1" "Met [[Alice]]" none none []) ≠
    calculate_content_hash (fun s => s)
      (.mk "b1" "j.md#b1" "Met [[Bob]]" none none []) :=
  c7_change_sensitivity (fun s => s) (fun _ _ h => h)
    (.mk "b1" "j.md#b1" "Met [[Alice]]" none none [])
    (.mk "b1" "j.md#b1" "Met [[Bob]]" none none [])
    (by
      intro h
      injection h with h1 h2 h3
      exact absurd h3 (by decide))

theorem c9_bootstrap_decline_no_side_effects_witness :
    run_bootstrap_pipeline ["maybe", "no"] (fun w => w)
      ({ wiki := some 0, db := some 0, git_repo := true } : World Nat Nat) =
    some ({ wiki := some 0, db := some 0, git_repo := true }, BootstrapOutcome.cancelled) :=
  c9_bootstrap_decline_no_side_effects ["maybe", "no"] (fun w => w)
    { wiki := some 0, db := some 0, git_repo := true } (by decide)

theorem c10_add_entity_no_update_witness :
    add_entity
      (add_entity DBState.empty ⟨"Alice", "person", some "wiki/People/Alice.md"⟩ 1).2
      ⟨"Alice", "person", some "wiki/Other/Alice.md"⟩ 2 =
    (false,
      (add_entity DBState.empty ⟨"Alice", "person", some "wiki/People/Alice.md"⟩ 1).2) ∧
    get_entity
      (add_entity
        (add_entity DBState.empty ⟨"Alice", "person", some "wiki/People/Alice.md"⟩ 1).2
        ⟨"Alice", "person", some "wiki/Other/Alice.md"⟩ 2).2 "Alice" =
      some ⟨"Alice", "person", some "wiki/People/Alice.md"⟩ :=
  c10_add_entity_no_update
    (add_entity DBState.empty ⟨"Alice", "person", some "wiki/People/Alice.md"⟩ 1).2
    "Alice" ⟨"Alice", "person", some "wiki/People/Alice.md"⟩
    ⟨"Alice", "person", some "wiki/Other/Alice.md"⟩ 2 (by decide) rfl
